import Mathlib

/-!
Verification development for the oro-commerce-mcp-server repository.

The repository is a TypeScript MCP server that reads an OpenAPI (Swagger)
document and exposes each endpoint as a callable tool.  This file gives a
shallow embedding of the relevant program parts:

* a model `JVal` of JavaScript/JSON runtime values (with JS truthiness,
  `Object.entries`, property access and string coercion);
* the swagger parser (`SwaggerParser.getAllEndpoints`,
  `generateToolName`, `generateInputSchema`, `shouldSkipEndpoint`,
  `generateMCPTools`) from `src/swagger-parser.ts`;
* the dynamic dispatch client (`DynamicOroClient.executeEndpoint`,
  `executeTool` lookup, `formatResponse`, `formatItem`) from
  `src/dynamic-client.ts`;
* the OAuth2 token manager (`OroCommerceClient.ensureValidToken`,
  `refreshToken`) from `src/oro-client.ts`.

Numbers that the program manipulates as JS floats (epoch seconds,
`expires_in`) are modelled as rationals; `NaN`/`null` expiries are
collapsed to `none` (both are falsy and incomparable in the only place
the program uses them).
-/

namespace OroMcp

/-- Model of a JavaScript/JSON runtime value. -/
inductive JVal where
  | jnull
  | jbool (b : Bool)
  | jnum (q : ℚ)
  | jstr (s : String)
  | jarr (xs : List JVal)
  | jobj (fs : List (String × JVal))
  deriving Repr

/-- JS truthiness of a value (`null`, `false`, `0`, `""` are falsy;
objects and arrays, even empty ones, are truthy). -/
def truthy : JVal → Bool
  | .jnull => false
  | .jbool b => b
  | .jnum q => q != 0
  | .jstr s => s != ""
  | .jarr _ => true
  | .jobj _ => true

/-- JS truthiness of a possibly-`undefined` value. -/
def truthyO : Option JVal → Bool
  | none => false
  | some v => truthy v

/-- `Object.entries` as used by the parser: fields of an object, indexed
elements of an array.  (The program only applies it to values whose
`typeof` is `object`.) -/
def jsEntries : JVal → List (String × JVal)
  | .jobj fs => fs
  | .jarr xs => xs.enum.map (fun p => (toString p.1, p.2))
  | _ => []

/-- Property access `v[k]` (`undefined` is `none`). -/
def jsField (v : JVal) (k : String) : Option JVal :=
  (jsEntries v).lookup k

/-- `typeof v === 'object'` (true for objects, arrays and `null`). -/
def typeofObject : JVal → Bool
  | .jobj _ => true
  | .jarr _ => true
  | .jnull => true
  | _ => false

/-- `Object.keys`. -/
def jsKeys (v : JVal) : List String :=
  (jsEntries v).map Prod.fst

/-- `Object.prototype.hasOwnProperty`. -/
def jsHasOwn (v : JVal) (k : String) : Bool :=
  (jsKeys v).contains k

mutual

/-- JS string coercion, as performed by template-literal interpolation
(`String(x)` / `${x}`); arrays render as their elements joined by commas
with `null` elements rendered empty. -/
def jsToString : JVal → String
  | .jnull => "null"
  | .jbool b => cond b "true" "false"
  | .jnum q => if q.den = 1 then toString q.num else toString q
  | .jstr s => s
  | .jarr xs => String.intercalate "," (jsToStringArr xs)
  | .jobj _ => "[object Object]"

/-- Rendering of the elements of an array for `jsToString`. -/
def jsToStringArr : List JVal → List String
  | [] => []
  | .jnull :: rest => "" :: jsToStringArr rest
  | v :: rest => jsToString v :: jsToStringArr rest

end

/-- Interpolation of a possibly-`undefined` value. -/
def jsToStringO : Option JVal → String
  | none => "undefined"
  | some v => jsToString v

/-! ## Character and string helpers (embedding the JS regex operations) -/

/-- Membership in the JS character class `[a-zA-Z0-9]`. -/
def isAlnumChar (c : Char) : Bool :=
  ('a' ≤ c && c ≤ 'z') || ('A' ≤ c && c ≤ 'Z') || ('0' ≤ c && c ≤ '9')

/-- One step of `.replace(/[^a-zA-Z0-9]/g, '_')`. -/
def replChar (c : Char) : Char :=
  if isAlnumChar c then c else '_'

/-- `.replace(/[^a-zA-Z0-9]/g, '_')` on a character list. -/
def replaceNonAlnum (l : List Char) : List Char :=
  l.map replChar

/-- `.replace(/_+/g, '_')`: collapse every run of underscores to one. -/
def collapseUnderscores : List Char → List Char
  | [] => []
  | c :: rest =>
    let r := collapseUnderscores rest
    if c == '_' && r.head? == some '_' then r else c :: r

/-- Drop a single leading underscore (the `^_` alternative of
`.replace(/^_|_$/g, '')`). -/
def dropLeadUnderscore : List Char → List Char
  | [] => []
  | c :: rest => if c = '_' then rest else c :: rest

/-- Drop a single trailing underscore (the `_$` alternative of
`.replace(/^_|_$/g, '')`). -/
def dropTrailUnderscore (l : List Char) : List Char :=
  if l.getLast? == some '_' then l.dropLast else l

/-- `.replace(/^_|_$/g, '')`. -/
def stripUnderscores (l : List Char) : List Char :=
  dropTrailUnderscore (dropLeadUnderscore l)

/-- ASCII lower-casing of one character (`String.prototype.toLowerCase`
restricted to the ASCII range, which is all this program feeds it). -/
def lowerChar (c : Char) : Char :=
  if 'A' ≤ c && c ≤ 'Z' then Char.ofNat (c.toNat + 32) else c

/-- ASCII upper-casing of one character (`String.prototype.toUpperCase`). -/
def upperChar (c : Char) : Char :=
  if 'a' ≤ c && c ≤ 'z' then Char.ofNat (c.toNat - 32) else c

/-- `.toLowerCase()` on a character list. -/
def toLowerAll (l : List Char) : List Char :=
  l.map lowerChar

/-- `.toLowerCase()` on a string. -/
def strLower (s : String) : String :=
  (toLowerAll s.toList).asString

/-- `.toUpperCase()` on a string. -/
def strUpper (s : String) : String :=
  (s.toList.map upperChar).asString

/-- The tool-name normalization chain of `generateToolName`
(`src/swagger-parser.ts` lines 142-146): replace non-alphanumerics with
`_`, collapse repeated `_`, strip one leading/trailing `_`, lowercase. -/
def normalizeChars (l : List Char) : List Char :=
  toLowerAll (stripUnderscores (collapseUnderscores (replaceNonAlnum l)))

/-- String version of the tool-name normalization. -/
def normalizeName (s : String) : String :=
  (normalizeChars s.toList).asString

/-- The backquote character, by code point. -/
def backquoteChar : Char := Char.ofNat 96

/-- The single-quote character, by code point. -/
def singleQuoteChar : Char := Char.ofNat 39

/-- ECMAScript `GetSubstitution`, as invoked by `String.prototype.replace`
even with a *string* pattern: in the replacement string, `$$` yields a
dollar sign, `$&` the matched text, `$` followed by a backquote the part
of the subject before the match, `$` followed by a single quote the part
after it; any other `$` (including `$1`..`$9`, as a string pattern has
no capture groups) is kept literally and scanning resumes at the next
character. -/
def getSubstitution (matched before after : List Char) : List Char → List Char
  | [] => []
  | c :: rest =>
    if c = '$' then
      match rest with
      | [] => ['$']
      | d :: rest' =>
        if d = '$' then '$' :: getSubstitution matched before after rest'
        else if d = '&' then matched ++ getSubstitution matched before after rest'
        else if d = backquoteChar then
          before ++ getSubstitution matched before after rest'
        else if d = singleQuoteChar then
          after ++ getSubstitution matched before after rest'
        else '$' :: getSubstitution matched before after (d :: rest')
    else c :: getSubstitution matched before after rest

/-- JS `String.prototype.replace` with a string pattern, accumulator
form: `before` holds the already-scanned part of the subject; at the
first position where `pat` matches, the substituted replacement is
inserted; with no match the subject is returned unchanged. -/
def replaceFirstAux (pat rep : List Char) : List Char → List Char → List Char
  | before, [] =>
    if pat.isPrefixOf [] then before ++ getSubstitution pat before [] rep
    else before
  | before, c :: rest =>
    if pat.isPrefixOf (c :: rest) then
      before ++ getSubstitution pat before ((c :: rest).drop pat.length) rep
        ++ (c :: rest).drop pat.length
    else replaceFirstAux pat rep (before ++ [c]) rest

/-- JS `String.prototype.replace` with a *string* pattern: replaces only
the first occurrence of `pat` in `l`, applying `GetSubstitution` to the
replacement. -/
def replaceFirstChars (l pat rep : List Char) : List Char :=
  replaceFirstAux pat rep [] l

/-- String version of first-occurrence replacement. -/
def jsReplaceFirst (s pat rep : String) : String :=
  (replaceFirstChars s.toList pat.toList rep.toList).asString

/-- String version of `GetSubstitution`. -/
def jsGetSubstitution (matched before after rep : String) : String :=
  (getSubstitution matched.toList before.toList after.toList rep.toList).asString

/-! ## Swagger parser data model (`src/swagger-parser.ts`) -/

/-- `SwaggerParameter` interface. -/
structure SwaggerParameter where
  name : String
  «in» : String
  description : Option JVal
  required : Bool
  schema : Option JVal
  «example» : Option JVal
  deriving Repr

/-- `SwaggerRequestBody` interface. -/
structure SwaggerRequestBody where
  description : Option JVal
  required : Bool
  content : JVal
  deriving Repr

/-- `SwaggerResponse` interface. -/
structure SwaggerResponse where
  description : Option JVal
  content : Option JVal
  deriving Repr

/-- `SwaggerEndpoint` interface. -/
structure SwaggerEndpoint where
  path : String
  method : String
  operationId : String
  summary : String
  description : String
  parameters : List SwaggerParameter
  tags : List String
  requestBody : Option SwaggerRequestBody
  responses : List (String × SwaggerResponse)
  deriving Repr

/-- `SwaggerParser.parseParameters`: keep non-`$ref` parameter objects. -/
def parseParameters (params : List JVal) : List SwaggerParameter :=
  params.filterMap (fun p =>
    if jsHasOwn p "$ref" then none
    else some
      { name := jsToStringO (jsField p "name")
        «in» := jsToStringO (jsField p "in")
        description := jsField p "description"
        required := truthyO (jsField p "required")
        schema := jsField p "schema"
        «example» := jsField p "example" })

/-- `SwaggerParser.parseRequestBody`. -/
def parseRequestBody (requestBody : Option JVal) : Option SwaggerRequestBody :=
  match requestBody with
  | none => none
  | some rb =>
    if !truthy rb || jsHasOwn rb "$ref" then none
    else some
      { description := jsField rb "description"
        required := truthyO (jsField rb "required")
        content := if truthyO (jsField rb "content")
                   then (jsField rb "content").getD (.jobj [])
                   else .jobj [] }

/-- `SwaggerParser.parseResponses`: keep non-`$ref` response entries. -/
def parseResponses (responses : List (String × JVal)) : List (String × SwaggerResponse) :=
  responses.filterMap (fun p =>
    if jsHasOwn p.2 "$ref" then none
    else some (p.1, { description := jsField p.2 "description"
                      content := jsField p.2 "content" }))

/-- Interpret a JS field as an array, with a default (`x || []` followed
by a `for..of` loop). -/
def asArr (v : Option JVal) : List JVal :=
  match v with
  | some (.jarr xs) => if truthyO v then xs else []
  | _ => []

/-- Interpret a JS field as a string array (`op.tags || []`). -/
def asStrArr (v : Option JVal) : List String :=
  (if truthyO v then asArr v else []).map jsToString

/-- The endpoint record pushed by `getAllEndpoints` for one
`(path, method, operation)` triple (`src/swagger-parser.ts` lines 66-76). -/
def mkEndpoint (path method : String) (op : JVal) : SwaggerEndpoint :=
  { path := path
    method := strUpper method
    operationId :=
      if truthyO (jsField op "operationId")
      then jsToStringO (jsField op "operationId")
      else method ++ "_" ++ (path.toList.map replChar).asString
    summary := if truthyO (jsField op "summary")
               then jsToStringO (jsField op "summary") else ""
    description := if truthyO (jsField op "description")
                   then jsToStringO (jsField op "description") else ""
    parameters := parseParameters
      (if truthyO (jsField op "parameters") then asArr (jsField op "parameters") else [])
    tags := asStrArr (jsField op "tags")
    requestBody := parseRequestBody (jsField op "requestBody")
    responses := parseResponses
      (if truthyO (jsField op "responses")
       then jsEntries ((jsField op "responses").getD (.jobj []))
       else []) }

/-- The endpoints contributed by one entry of `paths`
(`src/swagger-parser.ts` lines 58-78): skip non-object/falsy path items,
then keep every truthy object-valued key except `parameters`. -/
def endpointsOfPathItem (path : String) (pathItem : JVal) : List SwaggerEndpoint :=
  if !truthy pathItem || !typeofObject pathItem then []
  else (jsEntries pathItem).filterMap (fun p =>
    if !truthyO (some p.2) || !typeofObject p.2 || p.1 == "parameters" then none
    else some (mkEndpoint path p.1 p.2))

/-- `SwaggerParser.getAllEndpoints` over the document's `paths` object. -/
def getAllEndpoints (paths : List (String × JVal)) : List SwaggerEndpoint :=
  paths.flatMap (fun p => endpointsOfPathItem p.1 p.2)

/-- `SwaggerParser.shouldSkipEndpoint`: skip OPTIONS and HEAD only. -/
def shouldSkipEndpoint (e : SwaggerEndpoint) : Bool :=
  if e.method == "OPTIONS" then true
  else if e.method == "HEAD" then true
  else false

/-- `SwaggerParser.generateToolName`
(`src/swagger-parser.ts` lines 131-147). -/
def generateToolName (e : SwaggerEndpoint) : String :=
  let name :=
    if e.operationId != "" then e.operationId
    else
      let pathParts := (e.path.splitOn "/").filter
        (fun p => p != "" && !(p.startsWith "\x7b"))
      let resourceName := pathParts.getLast?.getD "resource"
      strLower e.method ++ "_" ++ resourceName
  normalizeName name

/-- `SwaggerParser.generateToolDescription`. -/
def generateToolDescription (e : SwaggerEndpoint) : String :=
  let base :=
    if e.summary != "" then e.summary
    else if e.description != "" then e.description
    else
      let lastSeg := ((e.path.splitOn "/").getLast?.getD "").toList.filter
        (fun c => c ≠ '\x7b' && c ≠ '\x7d')
      let resourceName := if lastSeg.isEmpty then "resource" else lastSeg.asString
      e.method ++ " " ++ resourceName ++ " from ORO Commerce API"
  let withPath := base ++ "\\n\\n**Endpoint:** " ++ e.method ++ " " ++ e.path
  if e.tags.length > 0
  then withPath ++ "\\n**Categories:** " ++ String.intercalate ", " e.tags
  else withPath

/-- `SwaggerParser.convertSwaggerTypeToJsonSchema`. -/
def convertSwaggerTypeToJsonSchema (schema : Option JVal) : JVal :=
  match schema with
  | none => .jstr "string"
  | some s =>
    if !truthy s then .jstr "string"
    else if truthyO (jsField s "type") then (jsField s "type").getD .jnull
    else if (match jsField s "format" with
             | some (.jstr f) => f == "int32" || f == "int64"
             | _ => false) then .jstr "integer"
    else .jstr "string"

/-- One entry of the generated `properties` object. -/
structure PropSchema where
  type : JVal
  description : String
  deriving Repr

/-- JS object assignment `obj[k] = v`: overwrite an existing key in
place, otherwise append. -/
def objInsert (k : String) (v : PropSchema) :
    List (String × PropSchema) → List (String × PropSchema)
  | [] => [(k, v)]
  | (k', v') :: rest =>
    if k' == k then (k, v) :: rest else (k', v') :: objInsert k v rest

/-- The generated MCP input schema (`type: 'object'` is implicit;
`required` is `none` when the collected list is empty). -/
structure InputSchema where
  properties : List (String × PropSchema)
  required : Option (List String)
  deriving Repr

/-- The property record built for one parameter. -/
def mkParamProp (p : SwaggerParameter) : PropSchema :=
  { type := convertSwaggerTypeToJsonSchema p.schema
    description := if truthyO p.description
                   then jsToStringO p.description
                   else p.name ++ " parameter" }

/-- One loop of `generateInputSchema`: push the name when required, then
assign the property. -/
def addParamsLoop (params : List SwaggerParameter)
    (acc : List (String × PropSchema) × List String) :
    List (String × PropSchema) × List String :=
  params.foldl
    (fun acc p =>
      let req := if p.required then acc.2 ++ [p.name] else acc.2
      (objInsert p.name (mkParamProp p) acc.1, req))
    acc

/-- `SwaggerParser.generateInputSchema`
(`src/swagger-parser.ts` lines 173-213). -/
def generateInputSchema (e : SwaggerEndpoint) : InputSchema :=
  let acc0 : List (String × PropSchema) × List String := ([], [])
  let acc1 := addParamsLoop (e.parameters.filter (fun p => p.«in» == "path")) acc0
  let acc2 := addParamsLoop (e.parameters.filter (fun p => p.«in» == "query")) acc1
  let acc3 :=
    match e.requestBody with
    | some rb =>
      if rb.required then
        (objInsert "requestBody"
          { type := .jstr "object"
            description := if truthyO rb.description
                           then jsToStringO rb.description
                           else "Request body data" } acc2.1,
         acc2.2 ++ ["requestBody"])
      else acc2
    | none => acc2
  { properties := acc3.1
    required := if acc3.2.length > 0 then some acc3.2 else none }

/-- `ParsedOperation` interface. -/
structure ParsedOperation where
  toolName : String
  description : String
  inputSchema : InputSchema
  endpoint : SwaggerEndpoint
  deriving Repr

/-- `SwaggerParser.generateMCPTools`: drop skipped endpoints, synthesize
one tool per remaining endpoint. -/
def generateMCPTools (endpoints : List SwaggerEndpoint) : List ParsedOperation :=
  endpoints.filterMap (fun e =>
    if shouldSkipEndpoint e then none
    else some
      { toolName := generateToolName e
        description := generateToolDescription e
        inputSchema := generateInputSchema e
        endpoint := e })

/-! ## Dynamic dispatch client (`src/dynamic-client.ts`) -/

/-- `DynamicRequestOptions` interface. -/
structure DynamicRequestOptions where
  pathParams : Option (List (String × JVal)) := none
  queryParams : Option (List (String × JVal)) := none
  requestBody : Option JVal := none
  headers : Option (List (String × String)) := none

/-- The endpoint echo carried in every `DynamicResponse`. -/
structure EndpointRef where
  path : String
  method : String
  operationId : String
  deriving Repr, DecidableEq

/-- `DynamicResponse` interface. -/
structure DynamicResponse where
  success : Bool
  data : Option JVal := none
  error : Option String := none
  statusCode : Option ℕ := none
  endpoint : EndpointRef
  deriving Repr

/-- The axios request configuration assembled by `executeEndpoint`. -/
structure ReqConfig where
  method : String
  url : String
  headers : List (String × String)
  params : Option (List (String × JVal)) := none
  data : Option JVal := none
  deriving Repr

/-- An axios response (`{status, data}`). -/
structure AxResponse where
  status : ℕ
  data : JVal
  deriving Repr

/-- A thrown transport error (`error.response?`, `error.message`). -/
structure JsError where
  response : Option AxResponse := none
  message : String := ""
  deriving Repr

/-- URL construction of `executeEndpoint` (`src/dynamic-client.ts` lines
77-82): for each `pathParams` entry, `url.replace('{'+key+'}',
String(value))` — a first-occurrence replacement. -/
def buildUrl (path : String) (pathParams : List (String × JVal)) : String :=
  pathParams.foldl
    (fun url p => jsReplaceFirst url ("\x7b" ++ p.1 ++ "\x7d") (jsToString p.2))
    path

/-- The request configuration built by `executeEndpoint`
(`src/dynamic-client.ts` lines 84-99). -/
def mkReqConfig (endpoint : SwaggerEndpoint) (options : DynamicRequestOptions) :
    ReqConfig :=
  let url := match options.pathParams with
    | some ps => buildUrl endpoint.path ps
    | none => endpoint.path
  let base : ReqConfig :=
    { method := strLower endpoint.method
      url := url
      headers := options.headers.getD [] }
  let withParams := match options.queryParams with
    | some qs => if qs.length > 0 then { base with params := some qs } else base
    | none => base
  match options.requestBody with
  | some b =>
    if truthy b && (endpoint.method == "POST" || endpoint.method == "PUT"
                    || endpoint.method == "PATCH")
    then { withParams with data := some b }
    else withParams
  | none => withParams

/-- The error message extraction of the catch branch:
`error.response?.data?.message || error.message || 'Unknown error'`. -/
def extractErrorMessage (err : JsError) : String :=
  let m1 : Option JVal := match err.response with
    | some r => jsField r.data "message"
    | none => none
  if truthyO m1 then jsToStringO m1
  else if err.message != "" then err.message
  else "Unknown error"

/-- `DynamicOroClient.executeEndpoint` (`src/dynamic-client.ts` lines
74-130).  The HTTP transport is a parameter: it either returns an axios
response or throws a `JsError`; the catch branch maps any throw to a
`success = false` envelope. -/
def executeEndpoint (transport : ReqConfig → Except JsError AxResponse)
    (endpoint : SwaggerEndpoint) (options : DynamicRequestOptions) :
    DynamicResponse :=
  let ref : EndpointRef :=
    { path := endpoint.path, method := endpoint.method
      operationId := endpoint.operationId }
  match transport (mkReqConfig endpoint options) with
  | .ok resp =>
    { success := true
      data := some resp.data
      statusCode := some resp.status
      endpoint := ref }
  | .error err =>
    { success := false
      error := some ("API call failed: " ++ extractErrorMessage err)
      statusCode := (err.response).map AxResponse.status
      endpoint := ref }

/-- The tool lookup performed by `DynamicOroClient.executeTool`
(`src/dynamic-client.ts` line 59): `Array.prototype.find`, which returns
the first match in catalog order. -/
def executeToolLookup (tools : List ParsedOperation) (toolName : String) :
    Option ParsedOperation :=
  tools.find? (fun t => t.toolName == toolName)

/-- `DynamicOroClient.formatItem` (`src/dynamic-client.ts` lines
287-301). -/
def formatItem (item : JVal) : String :=
  if !truthy item || !typeofObject item then jsToString item
  else
    let keyFields := ["id", "name", "title", "sku", "email", "status"]
    let display := String.intercalate ", "
      (((keyFields.filter (fun f => jsHasOwn item f)).map
        (fun f => f ++ ": " ++ jsToStringO (jsField item f))).take 3)
    if display != "" then display
    else String.intercalate ", "
      (((jsKeys item).take 3).map
        (fun k => k ++ ": " ++ jsToStringO (jsField item k)))

/-- `DynamicOroClient.formatResponse` (`src/dynamic-client.ts` lines
248-282).  The source's template literals contain the two-character
sequence `\n` (an escaped backslash), reproduced verbatim here. -/
def formatResponse (response : DynamicResponse) : String :=
  if !response.success then
    "❌ Error: " ++ (match response.error with
      | some e => e
      | none => "undefined") ++ "\\n" ++
    "Endpoint: " ++ response.endpoint.method ++ " " ++ response.endpoint.path
      ++ "\\n" ++
    "Status Code: " ++ (match response.statusCode with
      | some n => if n ≠ 0 then toString n else "Unknown"
      | none => "Unknown")
  else
    let inner : Option JVal := match response.data with
      | some v => jsField v "data"
      | none => none
    let data : Option JVal := if truthyO inner then inner else response.data
    let isArray := match data with
      | some (.jarr _) => true
      | _ => false
    let len := match data with
      | some (.jarr xs) => xs.length
      | _ => 0
    let itemCount := if isArray then len else 1
    let result :=
      "✅ Success: " ++ response.endpoint.operationId ++ "\\n" ++
      "Endpoint: " ++ response.endpoint.method ++ " "
        ++ response.endpoint.path ++ "\\n" ++
      "Status: " ++ (match response.statusCode with
        | some n => toString n
        | none => "undefined") ++ "\\n" ++
      "Items: " ++ toString itemCount ++ "\\n\\n"
    match data with
    | some (.jarr xs) =>
      if xs.length > 0 then
        let preview := String.intercalate "\\n"
          ((xs.take 3).enum.map
            (fun p => toString (p.1 + 1) ++ ". " ++ formatItem p.2))
        if xs.length > 3 then
          result ++ preview ++ "\\n... and " ++ toString (xs.length - 3)
            ++ " more items"
        else result ++ preview
      else result ++ "No data returned"
    | _ =>
      if truthyO data then result ++ formatItem (data.getD .jnull)
      else result ++ "No data returned"

/-! ## OAuth2 token manager (`src/oro-client.ts`) -/

/-- `OroConfig` interface. -/
structure OroConfig where
  shopUrl : String
  clientId : String
  clientSecret : String
  deriving Repr

/-- The mutable token state of `OroCommerceClient` (`token`,
`tokenExpiry`).  The expiry is epoch seconds; `null` and `NaN` are
collapsed to `none` (both are falsy in the only guard that reads it). -/
structure ClientState where
  token : Option JVal := none
  tokenExpiry : Option ℚ := none
  deriving Repr

/-- The HTTP request issued by `refreshToken` (`src/oro-client.ts`):
POST to `{shopUrl}/oauth2-token` with a plain JS object body and a
`Content-Type: application/json` header (axios serializes such a body as
JSON). -/
structure TokenRequest where
  url : String
  body : JVal
  contentType : String
  deriving Repr

/-- The token request assembled by `OroCommerceClient.refreshToken`. -/
def refreshTokenRequest (config : OroConfig) : TokenRequest :=
  { url := config.shopUrl ++ "/oauth2-token"
    body := .jobj
      [("grant_type", .jstr "client_credentials"),
       ("client_id", .jstr config.clientId),
       ("client_secret", .jstr config.clientSecret)]
    contentType := "application/json" }

/-- `OroCommerceClient.refreshToken`, state-passing form.  The single
HTTP round trip is a parameter (`outcome`): a thrown transport error
lands in the catch branch, which rethrows
`'Authentication failed with ORO Commerce API'` without touching the
state; a 2xx response stores `response.data.access_token` and
`now + expires_in - 300` as-is (a malformed body stores `undefined` and
`NaN`, modelled as `none`). -/
def refreshToken (st : ClientState) (now : ℚ)
    (outcome : Except JsError JVal) : ClientState × Option String :=
  match outcome with
  | .error _ => (st, some "Authentication failed with ORO Commerce API")
  | .ok body =>
    ({ token := jsField body "access_token"
       tokenExpiry := match jsField body "expires_in" with
         | some (.jnum e) => some (now + e - 300)
         | _ => none },
     none)

/-- The refresh condition of `ensureValidToken`:
`!this.token || (this.tokenExpiry && now >= this.tokenExpiry)`. -/
def needsRefresh (st : ClientState) (now : ℚ) : Bool :=
  !truthyO st.token ||
    (match st.tokenExpiry with
     | some e => e ≠ 0 && now ≥ e
     | none => false)

/-- `OroCommerceClient.ensureValidToken`: refresh exactly once when the
token is missing or expired, otherwise return immediately.  The third
component counts the network calls performed (0 or 1). -/
def ensureValidToken (st : ClientState) (now : ℚ)
    (outcome : Except JsError JVal) : ClientState × Option String × ℕ :=
  if needsRefresh st now then
    let r := refreshToken st now outcome
    (r.1, r.2, 1)
  else (st, none, 0)

/-! ## Concrete fixtures used by counterexamples and witnesses -/

/-- A concrete endpoint with a required path parameter. -/
def endpointWidgets : SwaggerEndpoint :=
  { path := "/widgets/\x7bid\x7d"
    method := "GET"
    operationId := "widgets_id_get"
    summary := ""
    description := ""
    parameters := [{ name := "id", «in» := "path", description := none
                     required := true, schema := none, «example» := none }]
    tags := []
    requestBody := none
    responses := [] }

/-- A second concrete endpoint whose tool name collides with the first
fixture tool below. -/
def endpointAccountsA : SwaggerEndpoint :=
  { path := "/admin/api/accounts"
    method := "GET"
    operationId := "accounts-get"
    summary := ""
    description := ""
    parameters := []
    tags := []
    requestBody := none
    responses := [] }

/-- A third concrete endpoint, distinct from `endpointAccountsA` but
normalizing to the same tool name. -/
def endpointAccountsB : SwaggerEndpoint :=
  { path := "/api/accounts"
    method := "GET"
    operationId := "accounts.get"
    summary := ""
    description := ""
    parameters := []
    tags := []
    requestBody := none
    responses := [] }

/-- The earlier of two colliding catalog entries. -/
def toolAccountsA : ParsedOperation :=
  { toolName := "accounts_get"
    description := "first"
    inputSchema := { properties := [], required := none }
    endpoint := endpointAccountsA }

/-- The later of two colliding catalog entries. -/
def toolAccountsB : ParsedOperation :=
  { toolName := "accounts_get"
    description := "second"
    inputSchema := { properties := [], required := none }
    endpoint := endpointAccountsB }

/-- A valid OpenAPI document whose single path item carries, besides a
`get` operation, a `servers` field (an array, hence a JS object). -/
def docWithServers : List (String × JVal) :=
  [("/a", .jobj
    [("get", .jobj [("operationId", .jstr "a_get")]),
     ("servers", .jarr [.jobj [("url", .jstr "https://example.com")]])])]

/-- The per-path-item tool count the code actually produces: entries
with a truthy object value, key distinct from `parameters`, whose
uppercased key is neither `OPTIONS` nor `HEAD`. -/
def methodKeyCount (pathItem : JVal) : ℕ :=
  (jsEntries pathItem).countP (fun q =>
    truthy q.2 && typeofObject q.2 && q.1 != "parameters"
    && strUpper q.1 != "OPTIONS" && strUpper q.1 != "HEAD")

/-- The total tool count the code actually produces for a document. -/
def amendedToolCount (paths : List (String × JVal)) : ℕ :=
  (paths.map (fun p =>
    if !truthy p.2 || !typeofObject p.2 then 0 else methodKeyCount p.2)).sum

/-- Modelled from the spec's words (claim C4): the number of
(path, HTTP method) pairs in the document whose method key is an HTTP
method token other than `options`/`head`. -/
def specMethodPairCount (paths : List (String × JVal)) : ℕ :=
  (paths.map (fun p => (jsEntries p.2).countP (fun q =>
    (["get", "put", "post", "delete", "options", "head", "patch",
      "trace"].contains q.1)
    && q.1 != "options" && q.1 != "head"))).sum

/-- Adjacent characters are not both underscores. -/
def notDoubleUnderscore (a b : Char) : Prop := ¬(a = '_' ∧ b = '_')

/-- A character list is normalized: every character is fixed by the
non-alphanumeric replacement and by lower-casing, no two adjacent
underscores, and no leading or trailing underscore. -/
def NormalizedChars (l : List Char) : Prop :=
  (∀ c ∈ l, replChar c = c ∧ lowerChar c = c) ∧
  List.Chain' notDoubleUnderscore l ∧
  l.head? ≠ some '_' ∧ l.getLast? ≠ some '_'

/-- A fixture sharing `endpointAccountsA`'s operationId but nothing
else, for the tool-name determinism witness. -/
def endpointAccountsDup : SwaggerEndpoint :=
  { path := "/other/accounts"
    method := "POST"
    operationId := "accounts-get"
    summary := "s"
    description := "d"
    parameters := []
    tags := ["accounts"]
    requestBody := none
    responses := [] }

/-! ## General-purpose helper lemmas -/

theorem strAppendAssoc (a b c : String) : a ++ b ++ c = a ++ (b ++ c) := by
  cases a; cases b; cases c
  exact congrArg String.mk (List.append_assoc _ _ _)

theorem strToListAppend (s t : String) : (s ++ t).toList = s.toList ++ t.toList := by
  cases s; cases t; rfl

theorem asStringAppend (l₁ l₂ : List Char) :
    (l₁ ++ l₂).asString = l₁.asString ++ l₂.asString := rfl

theorem getSubstitution_no_dollar (matched before after : List Char) :
    ∀ rep : List Char, '$' ∉ rep →
      getSubstitution matched before after rep = rep := by
  intro rep
  induction rep with
  | nil => intro _; rfl
  | cons c rest ih =>
    intro h
    have hc : ¬(c = '$') := fun hcc => h (hcc ▸ List.mem_cons_self c rest)
    have hrest : '$' ∉ rest := fun hm => h (List.mem_cons_of_mem c hm)
    rw [show getSubstitution matched before after (c :: rest) =
        c :: getSubstitution matched before after rest from by
      rw [getSubstitution.eq_def]
      simp [hc]]
    rw [ih hrest]

theorem replaceFirstAux_of_prefix (pat rep acc : List Char) :
    ∀ rem : List Char, pat.isPrefixOf rem = true →
      replaceFirstAux pat rep acc rem =
        acc ++ getSubstitution pat acc (rem.drop pat.length) rep
          ++ rem.drop pat.length := by
  intro rem h
  cases rem with
  | nil =>
    have hp : pat = [] := by
      cases pat with
      | nil => rfl
      | cons p ps => simp [List.isPrefixOf] at h
    subst hp
    simp [replaceFirstAux, List.isPrefixOf]
  | cons c rest => simp [replaceFirstAux, h]

theorem replaceFirstAux_cons_neg (pat rep acc : List Char) (c : Char)
    (rest : List Char) (h : pat.isPrefixOf (c :: rest) = false) :
    replaceFirstAux pat rep acc (c :: rest) =
      replaceFirstAux pat rep (acc ++ [c]) rest := by
  simp [replaceFirstAux, h]

theorem replaceFirstAux_spec (pat rep : List Char) :
    ∀ (pre post acc : List Char),
      (∀ i < pre.length, pat.isPrefixOf ((pre ++ pat ++ post).drop i) = false) →
      replaceFirstAux pat rep acc (pre ++ pat ++ post) =
        acc ++ pre ++ getSubstitution pat (acc ++ pre) post rep ++ post := by
  intro pre
  induction pre with
  | nil =>
    intro post acc _
    have hp : pat.isPrefixOf (pat ++ post) = true :=
      List.isPrefixOf_iff_prefix.mpr (List.prefix_append pat post)
    rw [List.nil_append, replaceFirstAux_of_prefix _ _ _ _ hp, List.drop_left]
    simp
  | cons c pre ih =>
    intro post acc h
    have h0 : pat.isPrefixOf (c :: (pre ++ pat ++ post)) = false := by
      have := h 0 (Nat.succ_pos _)
      simpa using this
    have hrest : ∀ i < pre.length,
        pat.isPrefixOf ((pre ++ pat ++ post).drop i) = false := by
      intro i hi
      have := h (i + 1) (Nat.succ_lt_succ hi)
      simpa using this
    have hshape : (c :: pre) ++ pat ++ post = c :: (pre ++ pat ++ post) := by simp
    rw [hshape, replaceFirstAux_cons_neg _ _ _ _ _ h0,
      ih post (acc ++ [c]) hrest]
    simp

/-- `replace` with a string pattern rewrites exactly the first
occurrence: if the pattern occurs right after `pre` and at no position
inside `pre`, the occurrence after `pre` is the one replaced, the
replacement passing through `GetSubstitution`. -/
theorem replaceFirstChars_first_occurrence (pat rep pre post : List Char)
    (h : ∀ i < pre.length, pat.isPrefixOf ((pre ++ pat ++ post).drop i) = false) :
    replaceFirstChars (pre ++ pat ++ post) pat rep =
      pre ++ getSubstitution pat pre post rep ++ post := by
  unfold replaceFirstChars
  rw [replaceFirstAux_spec pat rep pre post [] h]
  simp

theorem generateMCPTools_length_countP (es : List SwaggerEndpoint) :
    (generateMCPTools es).length = es.countP (fun e => !shouldSkipEndpoint e) := by
  induction es with
  | nil => rfl
  | cons e rest ih =>
    simp only [generateMCPTools] at ih ⊢
    by_cases h : shouldSkipEndpoint e <;>
      simp [List.filterMap_cons, h, List.countP_cons, ih]

theorem endpointsOfPathItem_countP (path : String) :
    ∀ (l : List (String × JVal)),
      ((l.filterMap (fun p =>
        if !truthyO (some p.2) || !typeofObject p.2 || p.1 == "parameters"
        then none
        else some (mkEndpoint path p.1 p.2))).countP
          (fun e => !shouldSkipEndpoint e)) =
      l.countP (fun q =>
        truthy q.2 && typeofObject q.2 && q.1 != "parameters"
        && strUpper q.1 != "OPTIONS" && strUpper q.1 != "HEAD") := by
  intro l
  induction l with
  | nil => rfl
  | cons q rest ih =>
    by_cases hskip : (!truthy q.2 || !typeofObject q.2 || q.1 == "parameters") = true
    · have hpred : (truthy q.2 && typeofObject q.2 && q.1 != "parameters"
          && strUpper q.1 != "OPTIONS" && strUpper q.1 != "HEAD") = false := by
        rcases Bool.or_eq_true_iff.mp hskip with h | h
        · rcases Bool.or_eq_true_iff.mp h with h1 | h1
          · have hf : truthy q.2 = false := by simpa using h1
            simp [hf]
          · have hf : typeofObject q.2 = false := by simpa using h1
            simp [hf]
        · have hf : q.1 = "parameters" := by simpa using h
          simp [hf]
      simp only [List.filterMap_cons, truthyO, hskip, List.countP_cons, hpred,
        if_true]
      simpa using ih
    · have hkeep : (!truthy q.2 || !typeofObject q.2 || q.1 == "parameters") = false := by
        simpa using hskip
      have h12 := Bool.or_eq_false_iff.mp hkeep
      have h1 := Bool.or_eq_false_iff.mp h12.1
      have ht1 : truthy q.2 = true := by simpa using h1.1
      have ht2 : typeofObject q.2 = true := by simpa using h1.2
      have ht3 : (q.1 == "parameters") = false := h12.2
      have hsk : shouldSkipEndpoint (mkEndpoint path q.1 q.2) =
          (strUpper q.1 == "OPTIONS" || strUpper q.1 == "HEAD") := by
        simp only [shouldSkipEndpoint, mkEndpoint]
        by_cases hA : strUpper q.1 == "OPTIONS"
        · simp [hA]
        · by_cases hB : strUpper q.1 == "HEAD" <;> simp [hA, hB]
      have ht3' : ¬(q.1 = "parameters") := by simpa using ht3
      simp [List.filterMap_cons, truthyO, hkeep, List.countP_cons, hsk,
        ht1, ht2, ht3, ht3', Bool.not_or]
      simp only [truthyO] at ih
      simpa using ih

/-- Claim C4, amended.  The number of synthesized tools equals, over
every truthy object-valued path item, the number of path-item entries
whose value is a truthy object, whose key is not `parameters`, and whose
uppercased key is neither `OPTIONS` nor `HEAD`.  HTTP-method keys other
than `options`/`head` all contribute, but so does any other object-valued
path-item key (e.g. a valid OpenAPI `servers` array). -/
theorem generateMCPTools_count (paths : List (String × JVal)) :
    (generateMCPTools (getAllEndpoints paths)).length = amendedToolCount paths := by
  rw [generateMCPTools_length_countP]
  induction paths with
  | nil => rfl
  | cons p rest ih =>
    obtain ⟨path, it⟩ := p
    have hflat : getAllEndpoints ((path, it) :: rest) =
        endpointsOfPathItem path it ++ getAllEndpoints rest := by
      simp [getAllEndpoints]
    rw [hflat, List.countP_append, ih]
    have hitem : (endpointsOfPathItem path it).countP
        (fun e => !shouldSkipEndpoint e) =
        if !truthy it || !typeofObject it then 0 else methodKeyCount it := by
      unfold endpointsOfPathItem
      by_cases hg : (!truthy it || !typeofObject it) = true
      · simp [hg]
      · have hg' : (!truthy it || !typeofObject it) = false := by simpa using hg
        simp only [hg', Bool.false_eq_true, if_false]
        rw [endpointsOfPathItem_countP path (jsEntries it)]
        rfl
    rw [hitem]
    simp [amendedToolCount, Nat.add_comm]

/-- Claim C4, counterexample.  A valid OpenAPI document whose path item
carries a `servers` array yields 2 tools, while it has only 1
(path, HTTP method) pair with method outside OPTIONS/HEAD. -/
theorem generateMCPTools_count_counterexample :
    (generateMCPTools (getAllEndpoints docWithServers)).length = 2 ∧
    specMethodPairCount docWithServers = 1 ∧ (2 : ℕ) ≠ 1 := by
  refine ⟨?_, ?_, by decide⟩
  · rfl
  · rfl

/-! ## Claim theorems -/

/-- Claim C1.  The token refresh operation in `src/oro-client.ts` does
*not* use form-url-encoded content: it posts a plain object (which axios
serializes as JSON) under an explicit `Content-Type: application/json`
header, contradicting both the claim and the repository's own CHANGELOG
entry 0.1.1 ("Use URL-encoded form data instead of JSON for OAuth2 token
requests"). -/
theorem refreshToken_request_is_json (config : OroConfig) :
    (refreshTokenRequest config).contentType = "application/json" ∧
    (refreshTokenRequest config).contentType ≠ "application/x-www-form-urlencoded" ∧
    (refreshTokenRequest config).body = .jobj
      [("grant_type", .jstr "client_credentials"),
       ("client_id", .jstr config.clientId),
       ("client_secret", .jstr config.clientSecret)] := by
  refine ⟨rfl, ?_, rfl⟩
  show ("application/json" : String) ≠ "application/x-www-form-urlencoded"
  decide

/-- Claim C2, counterexample.  URL construction does *not* replace every
occurrence of a placeholder with the stringified value: JS
`String.replace` with a string pattern replaces only the first
occurrence (template `/a/{id}/{id}` with `{id: "42"}` gives
`/a/42/{id}`), and the replacement string passes through JS
replacement-pattern substitution, so `{id: "$&"}` re-inserts the
matched placeholder (`/a/{id}`) instead of inserting `$&`. -/
theorem executeEndpoint_path_substitution_counterexample :
    (buildUrl "/a/\x7bid\x7d/\x7bid\x7d" [("id", .jstr "42")] =
      "/a/42/\x7bid\x7d" ∧
     buildUrl "/a/\x7bid\x7d/\x7bid\x7d" [("id", .jstr "42")] ≠ "/a/42/42") ∧
    (buildUrl "/a/\x7bid\x7d" [("id", .jstr "$&")] = "/a/\x7bid\x7d" ∧
     buildUrl "/a/\x7bid\x7d" [("id", .jstr "$&")] ≠ "/a/$&") := by
  refine ⟨⟨by decide, by decide⟩, by decide, by decide⟩

/-- Claim C2, amended.  For every path-parameter key, URL construction
replaces only the *first* literal occurrence of `{name}` in the path
template; the inserted text is the stringified value as transformed by
JS replacement-pattern substitution (`$$`, `$&`, a dollar before a
backquote or a single quote are interpreted even for string patterns),
so a stringified value containing no dollar sign is inserted verbatim;
in particular, for template `/accounts/{id}/contacts` (a single
occurrence) with pathParams `{id: "42"}` the constructed URL is exactly
`/accounts/42/contacts`. -/
theorem executeEndpoint_path_substitution
    (pre post k : String) (v : JVal)
    (hocc : ∀ i < pre.toList.length,
      (("\x7b" ++ k ++ "\x7d").toList).isPrefixOf
        (((pre ++ ("\x7b" ++ k ++ "\x7d") ++ post).toList).drop i) = false) :
    buildUrl (pre ++ ("\x7b" ++ k ++ "\x7d") ++ post) [(k, v)] =
      pre ++ jsGetSubstitution ("\x7b" ++ k ++ "\x7d") pre post (jsToString v)
        ++ post ∧
    ('$' ∉ (jsToString v).toList →
      buildUrl (pre ++ ("\x7b" ++ k ++ "\x7d") ++ post) [(k, v)] =
        pre ++ jsToString v ++ post) ∧
    buildUrl "/accounts/\x7bid\x7d/contacts" [("id", .jstr "42")] =
      "/accounts/42/contacts" := by
  have hmain : buildUrl (pre ++ ("\x7b" ++ k ++ "\x7d") ++ post) [(k, v)] =
      pre ++ jsGetSubstitution ("\x7b" ++ k ++ "\x7d") pre post (jsToString v)
        ++ post := by
    show jsReplaceFirst (pre ++ ("\x7b" ++ k ++ "\x7d") ++ post)
      ("\x7b" ++ k ++ "\x7d") (jsToString v) =
      pre ++ jsGetSubstitution ("\x7b" ++ k ++ "\x7d") pre post (jsToString v)
        ++ post
    unfold jsReplaceFirst jsGetSubstitution
    have htl : (pre ++ ("\x7b" ++ k ++ "\x7d") ++ post).toList =
        pre.toList ++ ("\x7b" ++ k ++ "\x7d").toList ++ post.toList := by
      rw [strToListAppend, strToListAppend]
    rw [htl, replaceFirstChars_first_occurrence _ _ _ _ (htl ▸ hocc),
      asStringAppend, asStringAppend, String.asString_toList,
      String.asString_toList]
  refine ⟨hmain, ?_, by decide⟩
  intro hd
  rw [hmain]
  unfold jsGetSubstitution
  rw [getSubstitution_no_dollar _ _ _ _ hd, String.asString_toList]

/-- Claim C2, witness: the amended theorem applied to
`/accounts/{id}/contacts` with `id = "42"` (whose stringification is
dollar-free). -/
theorem executeEndpoint_path_substitution_witness :
    buildUrl ("/accounts/" ++ ("\x7b" ++ "id" ++ "\x7d") ++ "/contacts")
        [("id", .jstr "42")] =
      "/accounts/" ++ jsToString (.jstr "42") ++ "/contacts" :=
  (executeEndpoint_path_substitution "/accounts/" "/contacts" "id"
    (.jstr "42") (by decide)).2.1 (by decide)

/-- Claim C3, counterexample.  With two catalog entries sharing the tool
name `accounts_get`, lookup returns the *earlier* entry (operationId
`accounts-get`), not the later one (`accounts.get`): `Array.find`
returns the first match. -/
theorem executeTool_collision_counterexample :
    (executeToolLookup [toolAccountsA, toolAccountsB] "accounts_get").map
        (fun t => t.endpoint.operationId) = some "accounts-get" ∧
    toolAccountsA.endpoint.operationId = "accounts-get" ∧
    toolAccountsB.endpoint.operationId = "accounts.get" ∧
    ("accounts-get" : String) ≠ "accounts.get" := by
  refine ⟨rfl, rfl, rfl, ?_⟩
  decide

/-- Claim C3, amended.  When several catalog entries share a tool name,
lookup by name resolves to the *earliest* entry in catalog order (the
later entries are silently shadowed). -/
theorem executeTool_collision_earlier_wins
    (pre : List ParsedOperation) (t : ParsedOperation)
    (rest : List ParsedOperation) (name : String)
    (hpre : ∀ u ∈ pre, u.toolName ≠ name) (ht : t.toolName = name) :
    executeToolLookup (pre ++ t :: rest) name = some t := by
  unfold executeToolLookup
  induction pre with
  | nil =>
    rw [List.nil_append]
    exact List.find?_cons_of_pos _ (by simp [ht])
  | cons u pre ih =>
    rw [List.cons_append,
      List.find?_cons_of_neg _ (by simp [hpre u (List.mem_cons_self u pre)])]
    exact ih (fun v hv => hpre v (List.mem_cons_of_mem u hv))

/-- Claim C3, witness for the amended theorem: in the two-entry colliding
catalog the earlier entry wins. -/
theorem executeTool_collision_earlier_wins_witness :
    executeToolLookup [toolAccountsA, toolAccountsB] "accounts_get" =
      some toolAccountsA :=
  executeTool_collision_earlier_wins [] toolAccountsA [toolAccountsB]
    "accounts_get" (by simp) rfl

/-- Claim C8, counterexample.  A "successful" 2xx token response with a
malformed body (here, an HTML error page) does *not* leave the stored
token unchanged and does *not* raise an AuthenticationError: the code
overwrites the token with `undefined` and the expiry with `NaN`,
reporting success. -/
theorem refreshToken_malformed_body_counterexample :
    (refreshToken { token := some (.jstr "oldtoken"), tokenExpiry := some 5000 }
        1000 (.ok (.jstr "<html>error page</html>"))).1.token = none ∧
    (({ token := some (.jstr "oldtoken"), tokenExpiry := some 5000 } :
        ClientState)).token ≠ none ∧
    (refreshToken { token := some (.jstr "oldtoken"), tokenExpiry := some 5000 }
        1000 (.ok (.jstr "<html>error page</html>"))).2 = none := by
  refine ⟨rfl, ?_, rfl⟩
  simp

/-- Claim C8, amended.  If the token refresh HTTP request *throws*
(network error or non-2xx response), the stored token and expiry are
left unchanged and the operation fails with the AuthenticationError
message, and `ensureValidToken` performs at most one refresh attempt (no
retry).  (A 2xx response with a malformed body is not detected; its
fields are stored as-is.) -/
theorem refreshToken_thrown_failure_preserves_state
    (st : ClientState) (now : ℚ) (err : JsError) :
    refreshToken st now (.error err) =
      (st, some "Authentication failed with ORO Commerce API") ∧
    ∀ outcome : Except JsError JVal,
      (ensureValidToken st now outcome).2.2 ≤ 1 := by
  refine ⟨rfl, ?_⟩
  intro outcome
  unfold ensureValidToken
  split <;> simp

/-- Claim C10.  `executeEndpoint` is total on every endpoint, argument
map and transport outcome: it always returns an envelope echoing the
endpoint's path, method and operationId, and any transport throw is
mapped to a `success = false` envelope whose error message is prefixed
`API call failed: ` and whose status code is the thrown error's response
status when one exists. -/
theorem executeEndpoint_total_envelope
    (transport : ReqConfig → Except JsError AxResponse)
    (e : SwaggerEndpoint) (opts : DynamicRequestOptions) :
    (executeEndpoint transport e opts).endpoint =
      { path := e.path, method := e.method, operationId := e.operationId } ∧
    (((executeEndpoint transport e opts).success = true ∧
      (executeEndpoint transport e opts).error = none) ∨
     ((executeEndpoint transport e opts).success = false ∧
      ∃ err : JsError,
        (executeEndpoint transport e opts).error =
          some ("API call failed: " ++ extractErrorMessage err) ∧
        (executeEndpoint transport e opts).statusCode =
          err.response.map AxResponse.status)) := by
  unfold executeEndpoint
  cases h : transport (mkReqConfig e opts) with
  | ok resp => exact ⟨rfl, Or.inl ⟨rfl, rfl⟩⟩
  | error err => exact ⟨rfl, Or.inr ⟨rfl, err, rfl, rfl⟩⟩

/-- Claim C5.  After a successful refresh at time `T` whose body carries
a truthy `access_token` and a numeric `expires_in = E` (with the stored
expiry `T + E - 300` nonzero, which holds for any real clock time),
`ensureValidToken` at any time `t < T + E - 300` performs no network
call and returns the cached state unchanged, and at any `t ≥ T + E -
300` performs exactly one refresh. -/
theorem ensureValidToken_refresh_window
    (st : ClientState) (T t E : ℚ) (body tok : JVal)
    (htok : jsField body "access_token" = some tok)
    (htru : truthy tok = true)
    (hE : jsField body "expires_in" = some (.jnum E))
    (hnz : T + E - 300 ≠ 0) :
    (t < T + E - 300 →
      ∀ outcome : Except JsError JVal,
        ensureValidToken (refreshToken st T (.ok body)).1 t outcome =
          ((refreshToken st T (.ok body)).1, none, 0)) ∧
    (T + E - 300 ≤ t →
      ∀ outcome : Except JsError JVal,
        ensureValidToken (refreshToken st T (.ok body)).1 t outcome =
          ((refreshToken (refreshToken st T (.ok body)).1 t outcome).1,
           (refreshToken st T (.ok body)).1 |> fun st1 =>
             (refreshToken st1 t outcome).2, 1)) := by
  have hst : (refreshToken st T (.ok body)).1 =
      { token := some tok, tokenExpiry := some (T + E - 300) } := by
    simp [refreshToken, htok, hE]
  constructor
  · intro hlt outcome
    have hnr : needsRefresh (refreshToken st T (.ok body)).1 t = false := by
      rw [hst]
      simp [needsRefresh, truthyO, htru, not_le.mpr hlt]
    simp [ensureValidToken, hnr]
  · intro hge outcome
    have hnr : needsRefresh (refreshToken st T (.ok body)).1 t = true := by
      rw [hst]
      simp [needsRefresh, truthyO, htru, hnz, hge]
    simp [ensureValidToken, hnr]

/-- Claim C5, witness: refresh at `T = 1700000` with `expires_in =
3600`; a call at `t = 1700100 < 1703300` does nothing, a call at `t =
1703300` performs exactly one refresh. -/
theorem ensureValidToken_refresh_window_witness :
    (ensureValidToken
        (refreshToken {} 1700000
          (.ok (.jobj [("access_token", .jstr "tok0"),
                       ("token_type", .jstr "Bearer"),
                       ("expires_in", .jnum 3600)]))).1
        1700100
        (.ok (.jobj [("access_token", .jstr "tok1"),
                     ("expires_in", .jnum 3600)]))).2.2 = 0 ∧
    (ensureValidToken
        (refreshToken {} 1700000
          (.ok (.jobj [("access_token", .jstr "tok0"),
                       ("token_type", .jstr "Bearer"),
                       ("expires_in", .jnum 3600)]))).1
        1703300
        (.ok (.jobj [("access_token", .jstr "tok1"),
                     ("expires_in", .jnum 3600)]))).2.2 = 1 := by
  have h := ensureValidToken_refresh_window {} 1700000 1700100 3600
    (.jobj [("access_token", .jstr "tok0"), ("token_type", .jstr "Bearer"),
            ("expires_in", .jnum 3600)]) (.jstr "tok0")
    rfl rfl rfl (by norm_num)
  have h' := ensureValidToken_refresh_window {} 1700000 1703300 3600
    (.jobj [("access_token", .jstr "tok0"), ("token_type", .jstr "Bearer"),
            ("expires_in", .jnum 3600)]) (.jstr "tok0")
    rfl rfl rfl (by norm_num)
  constructor
  · rw [h.1 (by norm_num) (.ok (.jobj [("access_token", .jstr "tok1"),
      ("expires_in", .jnum 3600)]))]
  · rw [h'.2 (by norm_num) (.ok (.jobj [("access_token", .jstr "tok1"),
      ("expires_in", .jnum 3600)]))]

/-- Claim C9.  On a successful result with an empty-list payload the
formatter reports `Items: 0` and no item preview (only `No data
returned`); on a 5-item list it previews exactly the first three items
and states `... and 2 more items`.  (The source's template literals
contain the two-character sequence `\n`, reproduced verbatim.) -/
theorem formatResponse_empty_and_five_items
    (ep : EndpointRef) (st : ℕ) (a b c d e : JVal) :
    formatResponse { success := true
                     data := some (.jarr [])
                     statusCode := some st
                     endpoint := ep } =
      "✅ Success: " ++ ep.operationId ++ "\\n" ++ "Endpoint: " ++ ep.method
        ++ " " ++ ep.path ++ "\\n" ++ "Status: " ++ toString st ++ "\\n"
        ++ "Items: 0" ++ "\\n\\n" ++ "No data returned" ∧
    formatResponse { success := true
                     data := some (.jarr [a, b, c, d, e])
                     statusCode := some st
                     endpoint := ep } =
      "✅ Success: " ++ ep.operationId ++ "\\n" ++ "Endpoint: " ++ ep.method
        ++ " " ++ ep.path ++ "\\n" ++ "Status: " ++ toString st ++ "\\n"
        ++ "Items: 5" ++ "\\n\\n"
        ++ "1. " ++ formatItem a ++ "\\n" ++ "2. " ++ formatItem b ++ "\\n"
        ++ "3. " ++ formatItem c ++ "\\n... and 2 more items" := by
  have h0 : toString (0 : ℕ) = "0" := rfl
  have h1 : toString (1 : ℕ) = "1" := rfl
  have h2 : toString (2 : ℕ) = "2" := rfl
  have h3 : toString (3 : ℕ) = "3" := rfl
  have h4 : toString (4 : ℕ) = "4" := rfl
  have h5 : toString (5 : ℕ) = "5" := rfl
  have mA : ∀ s : String, ("1" : String) ++ (". " ++ s) = "1. " ++ s :=
    fun s => by rw [← strAppendAssoc]; rfl
  have mB : ∀ s : String, ("2" : String) ++ (". " ++ s) = "2. " ++ s :=
    fun s => by rw [← strAppendAssoc]; rfl
  have mC : ∀ s : String, ("3" : String) ++ (". " ++ s) = "3. " ++ s :=
    fun s => by rw [← strAppendAssoc]; rfl
  have mD : ∀ s : String,
      ("\\nItems: 5\\n\\n" : String) ++ ("1. " ++ s) = "\\nItems: 5\\n\\n1. " ++ s :=
    fun s => by rw [← strAppendAssoc]; rfl
  have mE : ∀ s : String, ("\\n" : String) ++ ("2. " ++ s) = "\\n2. " ++ s :=
    fun s => by rw [← strAppendAssoc]; rfl
  have mF : ∀ s : String, ("\\n" : String) ++ ("3. " ++ s) = "\\n3. " ++ s :=
    fun s => by rw [← strAppendAssoc]; rfl
  constructor
  · simp [formatResponse, jsField, jsEntries, truthyO, h0, strAppendAssoc]
  · simp [formatResponse, jsField, jsEntries, truthyO, h0, h1, h2, h3, h4, h5,
      List.lookup, List.enum, List.enumFrom, String.intercalate,
      String.intercalate.go, strAppendAssoc, mA, mB, mC, mD, mE, mF]

theorem objInsert_cons_pos (k pk : String) (v pv : PropSchema)
    (rest : List (String × PropSchema)) (h : pk == k) :
    objInsert k v ((pk, pv) :: rest) = (k, v) :: rest := by
  simp [objInsert, h]

theorem objInsert_cons_neg (k pk : String) (v pv : PropSchema)
    (rest : List (String × PropSchema)) (h : ¬(pk == k)) :
    objInsert k v ((pk, pv) :: rest) = (pk, pv) :: objInsert k v rest := by
  simp [objInsert, h]

theorem mem_keys_objInsert_self (k : String) (v : PropSchema)
    (l : List (String × PropSchema)) :
    k ∈ (objInsert k v l).map Prod.fst := by
  induction l with
  | nil => simp [objInsert]
  | cons p rest ih =>
    obtain ⟨pk, pv⟩ := p
    by_cases h : pk == k
    · rw [objInsert_cons_pos _ _ _ _ _ h, List.map_cons]
      exact List.mem_cons_self _ _
    · rw [objInsert_cons_neg _ _ _ _ _ h, List.map_cons]
      exact List.mem_cons_of_mem _ ih

theorem mem_keys_objInsert_of_mem (k k' : String) (v : PropSchema)
    (l : List (String × PropSchema)) (h : k' ∈ l.map Prod.fst) :
    k' ∈ (objInsert k v l).map Prod.fst := by
  induction l with
  | nil => simp at h
  | cons p rest ih =>
    obtain ⟨pk, pv⟩ := p
    rw [List.map_cons] at h
    rcases List.mem_cons.mp h with h1 | h1
    · by_cases hk : pk == k
      · have hpk : pk = k := beq_iff_eq.mp hk
        have : k' = k := by rw [h1]; exact hpk
        rw [this]
        exact mem_keys_objInsert_self k v ((pk, pv) :: rest)
      · rw [objInsert_cons_neg _ _ _ _ _ hk, List.map_cons]
        exact List.mem_cons.mpr (Or.inl h1)
    · by_cases hk : pk == k
      · rw [objInsert_cons_pos _ _ _ _ _ hk, List.map_cons]
        exact List.mem_cons.mpr (Or.inr h1)
      · rw [objInsert_cons_neg _ _ _ _ _ hk, List.map_cons]
        exact List.mem_cons.mpr (Or.inr (ih h1))

theorem addParamsLoop_invariant (params : List SwaggerParameter) :
    ∀ (acc : List (String × PropSchema) × List String),
      (∀ n ∈ acc.2, n ∈ acc.1.map Prod.fst) →
      ∀ n ∈ (addParamsLoop params acc).2,
        n ∈ (addParamsLoop params acc).1.map Prod.fst := by
  induction params with
  | nil => intro acc h; simpa [addParamsLoop] using h
  | cons p rest ih =>
    intro acc h
    have hstep : ∀ n ∈ (if p.required then acc.2 ++ [p.name] else acc.2),
        n ∈ (objInsert p.name (mkParamProp p) acc.1).map Prod.fst := by
      intro n hn
      by_cases hr : p.required
      · rw [if_pos hr] at hn
        rcases List.mem_append.mp hn with h1 | h1
        · exact mem_keys_objInsert_of_mem _ _ _ _ (h n h1)
        · have : n = p.name := by simpa using h1
          rw [this]
          exact mem_keys_objInsert_self _ _ _
      · rw [if_neg hr] at hn
        exact mem_keys_objInsert_of_mem _ _ _ _ (h n hn)
    have := ih (objInsert p.name (mkParamProp p) acc.1,
      if p.required then acc.2 ++ [p.name] else acc.2) hstep
    simpa [addParamsLoop] using this

theorem req_wf_aux (props : List (String × PropSchema)) (req : List String)
    (hinv : ∀ n ∈ req, n ∈ props.map Prod.fst) (r : List String)
    (h : (if req.length > 0 then some req else none) = some r) :
    r ≠ [] ∧ ∀ n ∈ r, n ∈ props.map Prod.fst := by
  by_cases hl : req.length > 0
  · rw [if_pos hl] at h
    obtain rfl : req = r := Option.some.inj h
    exact ⟨List.ne_nil_of_length_pos hl, hinv⟩
  · rw [if_neg hl] at h
    cases h

/-- Claim C7.  For every endpoint, when the generated inputSchema's
`required` list is present it is non-empty, and every name in it appears
as a key of the inputSchema's `properties` map. -/
theorem generateInputSchema_required_wf (e : SwaggerEndpoint) (r : List String)
    (h : (generateInputSchema e).required = some r) :
    r ≠ [] ∧ ∀ n ∈ r, n ∈ (generateInputSchema e).properties.map Prod.fst := by
  have h1 := addParamsLoop_invariant
    (e.parameters.filter (fun p => p.«in» == "path")) ([], []) (by simp)
  have h2 := addParamsLoop_invariant
    (e.parameters.filter (fun p => p.«in» == "query")) _ h1
  rcases hrb : e.requestBody with _ | rb
  · simp only [generateInputSchema, hrb] at h ⊢
    exact req_wf_aux _ _ h2 r h
  · simp only [generateInputSchema, hrb] at h ⊢
    by_cases hreq : rb.required
    · simp only [if_pos hreq] at h ⊢
      refine req_wf_aux _ _ ?_ r h
      intro n hn
      rcases List.mem_append.mp hn with h1' | h1'
      · exact mem_keys_objInsert_of_mem _ _ _ _ (h2 n h1')
      · have : n = "requestBody" := by simpa using h1'
        rw [this]
        exact mem_keys_objInsert_self _ _ _
    · simp only [if_neg hreq] at h ⊢
      exact req_wf_aux _ _ h2 r h

/-- Claim C7, witness: the schema of a concrete endpoint with one
required path parameter `id`. -/
theorem generateInputSchema_required_wf_witness :
    (["id"] : List String) ≠ [] ∧
    ∀ n ∈ (["id"] : List String),
      n ∈ (generateInputSchema endpointWidgets).properties.map Prod.fst :=
  generateInputSchema_required_wf endpointWidgets ["id"] rfl

/-! ## Tool-name normalization lemmas and claim C6 -/
theorem char_toNat_ofNat (n : Nat) (h : n < 55296) : (Char.ofNat n).toNat = n := by
  simp [Char.ofNat, Nat.isValidChar, h, Char.toNat, Char.ofNatAux, UInt32.toNat]

theorem char_le_iff_toNat (a b : Char) : a ≤ b ↔ a.toNat ≤ b.toNat := Iff.rfl

theorem lowerChar_of_upper (c : Char) (h1 : 'A' ≤ c) (h2 : c ≤ 'Z') :
    (lowerChar c).toNat = c.toNat + 32 := by
  have hb : c.toNat ≤ 90 := (char_le_iff_toNat c 'Z').mp h2
  unfold lowerChar
  rw [if_pos (by simp [h1, h2])]
  exact char_toNat_ofNat _ (by omega)

theorem lowerChar_of_not_upper (c : Char) (h : ¬('A' ≤ c ∧ c ≤ 'Z')) :
    lowerChar c = c := by
  unfold lowerChar
  rw [if_neg]
  simpa using fun h1 h2 => h ⟨h1, h2⟩

theorem lowerChar_underscore_iff (c : Char) : lowerChar c = '_' ↔ c = '_' := by
  constructor
  · intro h
    by_cases hu : 'A' ≤ c ∧ c ≤ 'Z'
    · exfalso
      have ha : 65 ≤ c.toNat := (char_le_iff_toNat 'A' c).mp hu.1
      have hn := lowerChar_of_upper c hu.1 hu.2
      rw [h] at hn
      have h95 : ('_' : Char).toNat = 95 := by decide
      omega
    · rw [lowerChar_of_not_upper c hu] at h
      exact h
  · intro h
    rw [h]
    decide

theorem lowerChar_idem (c : Char) : lowerChar (lowerChar c) = lowerChar c := by
  by_cases hu : 'A' ≤ c ∧ c ≤ 'Z'
  · have hn := lowerChar_of_upper c hu.1 hu.2
    have ha : 65 ≤ c.toNat := (char_le_iff_toNat 'A' c).mp hu.1
    have hb : c.toNat ≤ 90 := (char_le_iff_toNat c 'Z').mp hu.2
    apply lowerChar_of_not_upper
    intro hu2
    have h2 : (lowerChar c).toNat ≤ 90 := (char_le_iff_toNat _ 'Z').mp hu2.2
    omega
  · rw [lowerChar_of_not_upper c hu, lowerChar_of_not_upper c hu]

theorem replChar_lowerChar_replChar (c : Char) :
    replChar (lowerChar (replChar c)) = lowerChar (replChar c) := by
  by_cases ha : isAlnumChar c
  · rw [show replChar c = c from by simp [replChar, ha]]
    by_cases hu : 'A' ≤ c ∧ c ≤ 'Z'
    · have hn := lowerChar_of_upper c hu.1 hu.2
      have ha' : 65 ≤ c.toNat := (char_le_iff_toNat 'A' c).mp hu.1
      have hb' : c.toNat ≤ 90 := (char_le_iff_toNat c 'Z').mp hu.2
      have h1 : 'a' ≤ lowerChar c := by
        rw [char_le_iff_toNat, hn]
        have h97 : ('a' : Char).toNat = 97 := by decide
        omega
      have h2 : lowerChar c ≤ 'z' := by
        rw [char_le_iff_toNat, hn]
        have h122 : ('z' : Char).toNat = 122 := by decide
        omega
      have hlo : isAlnumChar (lowerChar c) = true := by
        simp [isAlnumChar, h1, h2]
      simp [replChar, hlo]
    · rw [lowerChar_of_not_upper c hu]
      simp [replChar, ha]
  · rw [show replChar c = '_' from by simp [replChar, ha]]
    rw [show lowerChar '_' = '_' from by decide]
    decide

theorem mem_collapse {a : Char} : ∀ {l : List Char},
    a ∈ collapseUnderscores l → a ∈ l := by
  intro l
  induction l with
  | nil => simp [collapseUnderscores]
  | cons c rest ih =>
    simp only [collapseUnderscores]
    by_cases h : (c == '_' && (collapseUnderscores rest).head? == some '_') = true
    · rw [if_pos h]
      intro ha
      exact List.mem_cons_of_mem _ (ih ha)
    · rw [if_neg h]
      intro ha
      rcases List.mem_cons.mp ha with h1 | h1
      · rw [h1]; exact List.mem_cons_self _ _
      · exact List.mem_cons_of_mem _ (ih h1)

theorem collapse_chain (l : List Char) :
    List.Chain' notDoubleUnderscore (collapseUnderscores l) := by
  induction l with
  | nil => simp [collapseUnderscores]
  | cons c rest ih =>
    simp only [collapseUnderscores]
    by_cases h : (c == '_' && (collapseUnderscores rest).head? == some '_') = true
    · rw [if_pos h]; exact ih
    · rw [if_neg h]
      rw [List.chain'_cons']
      refine ⟨?_, ih⟩
      intro y hy hcy
      obtain ⟨hc, hy'⟩ := hcy
      apply h
      have hh : (collapseUnderscores rest).head? = some y := Option.mem_def.mp hy
      simp [hc, hh, hy']

theorem collapse_eq_self : ∀ {l : List Char},
    List.Chain' notDoubleUnderscore l → collapseUnderscores l = l := by
  intro l
  induction l with
  | nil => intro _; rfl
  | cons c rest ih =>
    intro h
    have hr := (List.chain'_cons'.mp h).2
    have hhead := (List.chain'_cons'.mp h).1
    simp only [collapseUnderscores, ih hr]
    rw [if_neg]
    intro hcond
    obtain ⟨hc, hy⟩ : c = '_' ∧ rest.head? = some '_' := by simpa using hcond
    exact (hhead '_' (Option.mem_def.mpr hy)) ⟨hc, rfl⟩

theorem mem_dropLead {a : Char} {l : List Char}
    (h : a ∈ dropLeadUnderscore l) : a ∈ l := by
  cases l with
  | nil => simp [dropLeadUnderscore] at h
  | cons c rest =>
    by_cases hc : c = '_'
    · rw [show dropLeadUnderscore (c :: rest) = rest from by
        simp [dropLeadUnderscore, hc]] at h
      exact List.mem_cons_of_mem _ h
    · rwa [show dropLeadUnderscore (c :: rest) = c :: rest from by
        simp [dropLeadUnderscore, hc]] at h

theorem mem_dropTrail {a : Char} {l : List Char}
    (h : a ∈ dropTrailUnderscore l) : a ∈ l := by
  unfold dropTrailUnderscore at h
  by_cases hg : (l.getLast? == some '_') = true
  · rw [if_pos hg] at h
    exact (List.dropLast_prefix l).sublist.mem h
  · rwa [if_neg hg] at h

theorem mem_strip {a : Char} {l : List Char}
    (h : a ∈ stripUnderscores l) : a ∈ l :=
  mem_dropLead (mem_dropTrail h)

theorem chain_dropLead {l : List Char}
    (h : List.Chain' notDoubleUnderscore l) :
    List.Chain' notDoubleUnderscore (dropLeadUnderscore l) := by
  cases l with
  | nil => simp [dropLeadUnderscore]
  | cons c rest =>
    by_cases hc : c = '_'
    · rw [show dropLeadUnderscore (c :: rest) = rest from by
        simp [dropLeadUnderscore, hc]]
      exact (List.chain'_cons'.mp h).2
    · rwa [show dropLeadUnderscore (c :: rest) = c :: rest from by
        simp [dropLeadUnderscore, hc]]

theorem chain_strip {l : List Char}
    (h : List.Chain' notDoubleUnderscore l) :
    List.Chain' notDoubleUnderscore (stripUnderscores l) := by
  unfold stripUnderscores dropTrailUnderscore
  by_cases hg : ((dropLeadUnderscore l).getLast? == some '_') = true
  · rw [if_pos hg]
    rw [List.dropLast_eq_take]
    exact (chain_dropLead h).take _
  · rw [if_neg hg]
    exact chain_dropLead h

theorem head?_dropLast_ne (m : List Char) (h : m.head? ≠ some '_') :
    (m.dropLast).head? ≠ some '_' := by
  cases m with
  | nil => simp
  | cons a rest =>
    cases rest with
    | nil => simp
    | cons b t =>
      rw [show (a :: b :: t).dropLast = a :: (b :: t).dropLast from rfl]
      simpa using h

theorem strip_head {l : List Char}
    (h : List.Chain' notDoubleUnderscore l) :
    (stripUnderscores l).head? ≠ some '_' := by
  have hm : (dropLeadUnderscore l).head? ≠ some '_' := by
    cases l with
    | nil => simp [dropLeadUnderscore]
    | cons c rest =>
      by_cases hc : c = '_'
      · rw [show dropLeadUnderscore (c :: rest) = rest from by
          simp [dropLeadUnderscore, hc]]
        intro hy
        exact ((List.chain'_cons'.mp h).1 '_' (Option.mem_def.mpr hy)) ⟨hc, rfl⟩
      · rw [show dropLeadUnderscore (c :: rest) = c :: rest from by
          simp [dropLeadUnderscore, hc]]
        simpa using hc
  unfold stripUnderscores dropTrailUnderscore
  by_cases hg : ((dropLeadUnderscore l).getLast? == some '_') = true
  · rw [if_pos hg]
    exact head?_dropLast_ne _ hm
  · rw [if_neg hg]
    exact hm

theorem getLast?_dropLast_ne : ∀ (m : List Char),
    List.Chain' notDoubleUnderscore m → m.getLast? = some '_' →
    (m.dropLast).getLast? ≠ some '_' := by
  intro m
  induction m with
  | nil => intro _ h; simp at h
  | cons a rest ih =>
    intro hc hl
    cases rest with
    | nil => simp
    | cons b t =>
      rw [show (a :: b :: t).dropLast = a :: (b :: t).dropLast from rfl]
      have hl' : (b :: t).getLast? = some '_' := by
        rw [← List.getLast?_cons_cons]; exact hl
      have hcr : List.Chain' notDoubleUnderscore (b :: t) :=
        (List.chain'_cons'.mp hc).2
      cases t with
      | nil =>
        have hb : b = '_' := by simpa using hl'
        have ha : ¬(a = '_' ∧ b = '_') :=
          (List.chain'_cons'.mp hc).1 b (by simp)
        simp only [List.dropLast_single]
        intro haa
        have haa' : a = '_' := by simpa using haa
        exact ha ⟨haa', hb⟩
      | cons x xs =>
        have hne : (b :: x :: xs).dropLast ≠ [] := by
          rw [show (b :: x :: xs).dropLast = b :: (x :: xs).dropLast from rfl]
          simp
        have hstep : (a :: (b :: x :: xs).dropLast).getLast? =
            ((b :: x :: xs).dropLast).getLast? := by
          cases hdd : (b :: x :: xs).dropLast with
          | nil => exact absurd hdd hne
          | cons u us => rw [List.getLast?_cons_cons]
        rw [hstep]
        exact ih hcr hl'

theorem strip_last {l : List Char}
    (h : List.Chain' notDoubleUnderscore l) :
    (stripUnderscores l).getLast? ≠ some '_' := by
  have hm : List.Chain' notDoubleUnderscore (dropLeadUnderscore l) :=
    chain_dropLead h
  unfold stripUnderscores dropTrailUnderscore
  by_cases hg : ((dropLeadUnderscore l).getLast? == some '_') = true
  · rw [if_pos hg]
    exact getLast?_dropLast_ne _ hm (by simpa using hg)
  · rw [if_neg hg]
    intro hx
    exact hg (by simp [hx])

theorem strip_eq_self {l : List Char} (h1 : l.head? ≠ some '_')
    (h2 : l.getLast? ≠ some '_') : stripUnderscores l = l := by
  unfold stripUnderscores
  have hd : dropLeadUnderscore l = l := by
    cases l with
    | nil => rfl
    | cons c rest =>
      have hc : ¬(c = '_') := by
        intro hc
        exact h1 (by simp [hc])
      simp [dropLeadUnderscore, hc]
  rw [hd]
  unfold dropTrailUnderscore
  rw [if_neg]
  simpa using h2

theorem chain_toLowerAll {l : List Char}
    (h : List.Chain' notDoubleUnderscore l) :
    List.Chain' notDoubleUnderscore (toLowerAll l) := by
  unfold toLowerAll
  rw [List.chain'_map]
  refine h.imp ?_
  intro a b hab hcontra
  exact hab ⟨(lowerChar_underscore_iff a).mp hcontra.1,
    (lowerChar_underscore_iff b).mp hcontra.2⟩

theorem normalizeChars_normalized (l : List Char) :
    NormalizedChars (normalizeChars l) := by
  unfold normalizeChars
  have hchain_col : List.Chain' notDoubleUnderscore
      (collapseUnderscores (replaceNonAlnum l)) := collapse_chain _
  refine ⟨?_, chain_toLowerAll (chain_strip hchain_col), ?_, ?_⟩
  · intro c hc
    obtain ⟨b, hb, rfl⟩ := List.mem_map.mp hc
    have hbmem : b ∈ replaceNonAlnum l := mem_collapse (mem_strip hb)
    obtain ⟨a, _, rfl⟩ := List.mem_map.mp hbmem
    exact ⟨replChar_lowerChar_replChar a, lowerChar_idem _⟩
  · unfold toLowerAll
    rw [List.head?_map]
    intro hx
    cases hh : (stripUnderscores (collapseUnderscores (replaceNonAlnum l))).head? with
    | none => rw [hh] at hx; simp at hx
    | some y =>
      rw [hh] at hx
      simp only [Option.map_some'] at hx
      have hy : y = '_' :=
        (lowerChar_underscore_iff y).mp (Option.some.inj hx)
      exact strip_head hchain_col (by rw [hh, hy])
  · unfold toLowerAll
    rw [List.getLast?_map]
    intro hx
    cases hh : (stripUnderscores (collapseUnderscores (replaceNonAlnum l))).getLast? with
    | none => rw [hh] at hx; simp at hx
    | some y =>
      rw [hh] at hx
      simp only [Option.map_some'] at hx
      have hy : y = '_' :=
        (lowerChar_underscore_iff y).mp (Option.some.inj hx)
      exact strip_last hchain_col (by rw [hh, hy])

theorem normalizeChars_eq_self {l : List Char} (h : NormalizedChars l) :
    normalizeChars l = l := by
  obtain ⟨hfix, hchain, hhead, hlast⟩ := h
  have hrepl : replaceNonAlnum l = l := by
    unfold replaceNonAlnum
    have hmap : l.map replChar = l.map id :=
      List.map_congr_left (fun c hc => by rw [(hfix c hc).1]; rfl)
    rw [hmap, List.map_id]
  have hlow : toLowerAll l = l := by
    unfold toLowerAll
    have hmap : l.map lowerChar = l.map id :=
      List.map_congr_left (fun c hc => by rw [(hfix c hc).2]; rfl)
    rw [hmap, List.map_id]
  unfold normalizeChars
  rw [hrepl, collapse_eq_self hchain, strip_eq_self hhead hlast, hlow]

/-- Claim C6.  For endpoints with a nonempty operationId (the enumerator
always synthesizes one), the tool name is a deterministic pure function
of the operationId alone; and the normalization (replace
non-alphanumerics with `_`, collapse repeated `_`, strip
leading/trailing `_`, lowercase) is idempotent on every string. -/
theorem generateToolName_deterministic_idempotent :
    (∀ e₁ e₂ : SwaggerEndpoint, e₁.operationId = e₂.operationId →
      e₁.operationId ≠ "" → generateToolName e₁ = generateToolName e₂) ∧
    ∀ s : String, normalizeName (normalizeName s) = normalizeName s := by
  constructor
  · intro e1 e2 heq hne
    have h1 : (e1.operationId != "") = true := by simpa using hne
    have h2 : (e2.operationId != "") = true := by
      rw [← heq]; exact h1
    unfold generateToolName
    rw [h1, h2, if_pos rfl, if_pos rfl, heq]
  · intro s
    unfold normalizeName
    rw [List.toList_asString,
      normalizeChars_eq_self (normalizeChars_normalized s.toList)]

/-- Claim C6, witness: two distinct endpoints sharing operationId
`accounts-get` get the same tool name, and normalizing
`Get.Accounts` twice equals normalizing it once. -/
theorem generateToolName_deterministic_idempotent_witness :
    generateToolName endpointAccountsA = generateToolName endpointAccountsDup ∧
    normalizeName (normalizeName "Get.Accounts") = normalizeName "Get.Accounts" :=
  ⟨generateToolName_deterministic_idempotent.1 endpointAccountsA
      endpointAccountsDup rfl (by decide),
   generateToolName_deterministic_idempotent.2 "Get.Accounts"⟩

end OroMcp
